import Mathlib

/-!
Verification of the kNN coordinator in `classifier.c` against its design
specification.  The C source is shallowly embedded: the partition
computation of the dispatch loop (lines 133-143, 219), the `strncmp`
based metric selection (lines 96-103), the `getopt` argument parsing
(lines 55-82), the output statements of the success path, the
result-collection loop (lines 224-245) and the wait loop (lines 253-266)
are each translated into executable Lean definitions, and the spec
claims are settled as theorems about those definitions.

Machine integers are modelled as `Nat`/`Int`.  The C code computes the
per-worker count as `ceil((double)T / P)` resp. `floor((double)T / P)`
with `int` operands: for `0 <= T < 2^31` and `1 <= P < 2^31` the double
division is exact enough that `ceil`/`floor` of the rounded quotient
agree with the mathematical `ceil`/`floor` (a fractional quotient has
distance at least `1/P > (T/P) * 2^-52` from the nearest integer), so
they are embedded as exact natural ceiling and floor division.
-/

namespace Classifier

/-- Ceiling division, the embedding of `ceil((double)T / P)` at line 140. -/
def cdiv (a b : Nat) : Nat := (a + b - 1) / b

/-- Embedding of `int boundary = testing->num_items % num_procs` (line 134). -/
def boundary (T P : Nat) : Nat := T % P

/-- Embedding of the per-iteration count `N` (lines 139-143): workers with
index below `boundary` get the ceiling, the rest the floor. -/
def partN (T P i : Nat) : Nat :=
  if i < boundary T P then cdiv T P else T / P

/-- Embedding of the running `start_idx` (lines 133 and 219): worker `i`
starts where the previous partitions end. -/
def start_idx (T P : Nat) : Nat → Nat
  | 0 => 0
  | i + 1 => start_idx T P i + partN T P i

lemma cdiv_eq_div_succ (T P : Nat) (hP : 1 ≤ P) (hr : T % P ≠ 0) :
    cdiv T P = T / P + 1 := by
  have hmod := Nat.div_add_mod T P
  have hlt : T % P < P := Nat.mod_lt _ (by omega)
  have hmul : P * (T / P + 1) = P * (T / P) + P := by ring
  have h1 : T + P - 1 = (T % P - 1) + P * (T / P + 1) := by omega
  have h2 : (T % P - 1 + P * (T / P + 1)) / P = (T % P - 1) / P + (T / P + 1) :=
    Nat.add_mul_div_left _ _ (by omega)
  have h3 : (T % P - 1) / P = 0 := Nat.div_eq_of_lt (by omega)
  unfold cdiv
  rw [h1, h2, h3]
  omega

lemma partN_of_lt (T P i : Nat) (hP : 1 ≤ P) (hi : i < T % P) :
    partN T P i = T / P + 1 := by
  unfold partN boundary
  rw [if_pos hi]
  exact cdiv_eq_div_succ T P hP (by omega)

lemma partN_of_ge (T P i : Nat) (hi : T % P ≤ i) : partN T P i = T / P := by
  unfold partN boundary
  rw [if_neg (by omega)]

lemma start_idx_closed (T P : Nat) (hP : 1 ≤ P) (i : Nat) :
    start_idx T P i = (T / P) * i + min i (T % P) := by
  induction i with
  | zero => simp [start_idx]
  | succ k ih =>
    have hmul : (T / P) * (k + 1) = (T / P) * k + T / P := by ring
    by_cases hk : k < T % P
    · rw [start_idx, ih, partN_of_lt T P k hP hk]
      omega
    · rw [start_idx, ih, partN_of_ge T P k (by omega)]
      omega

lemma start_idx_total (T P : Nat) (hP : 1 ≤ P) : start_idx T P P = T := by
  rw [start_idx_closed T P hP P]
  have hlt : T % P < P := Nat.mod_lt _ (by omega)
  have hmod := Nat.div_add_mod T P
  have hc : (T / P) * P = P * (T / P) := Nat.mul_comm _ _
  omega

lemma start_idx_mono (T P : Nat) {i j : Nat} (h : i ≤ j) :
    start_idx T P i ≤ start_idx T P j := by
  induction j with
  | zero =>
    have hi0 : i = 0 := by omega
    simp [hi0]
  | succ k ih =>
    rcases Nat.lt_or_ge i (k + 1) with hik | hik
    · have := ih (by omega)
      calc start_idx T P i ≤ start_idx T P k := this
        _ ≤ start_idx T P k + partN T P k := Nat.le_add_right _ _
        _ = start_idx T P (k + 1) := rfl
    · have hik2 : i = k + 1 := by omega
      rw [hik2]

/-- C1: for every `T ≥ 0` and `P ≥ 1` the dispatch loop assigns worker `i`
the contiguous partition `(start_idx i, partN i)`; the first `T mod P`
workers get `T / P + 1` (the ceiling) items and the rest `T / P` (the
floor); start indices accumulate from 0 with no gaps, the partitions are
pairwise disjoint and ascending, the lengths sum to exactly `T`, and no
two lengths differ by more than 1. -/
theorem partition_plan (T P : Nat) (hP : 1 ≤ P) :
    (∀ i, i < T % P → partN T P i = T / P + 1) ∧
    (∀ i, T % P ≤ i → partN T P i = T / P) ∧
    start_idx T P 0 = 0 ∧
    (∀ i, start_idx T P (i + 1) = start_idx T P i + partN T P i) ∧
    (∀ i j, i < j → j < P → start_idx T P i + partN T P i ≤ start_idx T P j) ∧
    start_idx T P P = T ∧
    (∀ i j, i < P → j < P → partN T P i ≤ partN T P j + 1) := by
  refine ⟨fun i hi => partN_of_lt T P i hP hi,
          fun i hi => partN_of_ge T P i hi, rfl, fun i => rfl, ?_, ?_, ?_⟩
  · intro i j hij hjP
    have h1 : start_idx T P i + partN T P i = start_idx T P (i + 1) := rfl
    have h2 : start_idx T P (i + 1) ≤ start_idx T P j :=
      start_idx_mono T P (by omega)
    omega
  · exact start_idx_total T P hP
  · intro i j hiP hjP
    have hvi : partN T P i = T / P + 1 ∨ partN T P i = T / P := by
      by_cases hi : i < T % P
      · exact Or.inl (partN_of_lt T P i hP hi)
      · exact Or.inr (partN_of_ge T P i (by omega))
    have hvj : partN T P j = T / P + 1 ∨ partN T P j = T / P := by
      by_cases hj : j < T % P
      · exact Or.inl (partN_of_lt T P j hP hj)
      · exact Or.inr (partN_of_ge T P j (by omega))
    omega

/-- Witness for `partition_plan` at `T = 7`, `P = 3`. -/
theorem partition_plan_witness :
    1 ≤ 3 ∧
    ((∀ i, i < 7 % 3 → partN 7 3 i = 7 / 3 + 1) ∧
     (∀ i, 7 % 3 ≤ i → partN 7 3 i = 7 / 3) ∧
     start_idx 7 3 0 = 0 ∧
     (∀ i, start_idx 7 3 (i + 1) = start_idx 7 3 i + partN 7 3 i) ∧
     (∀ i j, i < j → j < 3 → start_idx 7 3 i + partN 7 3 i ≤ start_idx 7 3 j) ∧
     start_idx 7 3 3 = 7 ∧
     (∀ i j, i < 3 → j < 3 → partN 7 3 i ≤ partN 7 3 j + 1)) :=
  ⟨by decide, partition_plan 7 3 (by decide)⟩

/-! ### Metric selection (lines 95-103)

The `-d` string is a C string, embedded as the `List Char` of its bytes
before the NUL terminator.  `strncmp(dist_metric, name, strlen(dist_metric))`
is embedded byte for byte, including the early stop at a shared NUL
terminator; the end of a list stands for the NUL. -/

inductive Metric where
  | euclidean
  | cosine
deriving DecidableEq

/-- Byte list of the literal `"euclidean"` (line 96). -/
def euclName : List Char := ['e', 'u', 'c', 'l', 'i', 'd', 'e', 'a', 'n']

/-- Byte list of the literal `"cosine"` (line 98). -/
def cosineName : List Char := ['c', 'o', 's', 'i', 'n', 'e']

/-- Bytes are in bijection with the `Char`s that carry them. -/
lemma char_eq_of_toNat_eq {c d : Char} (h : c.toNat = d.toNat) : c = d :=
  Char.ext (UInt32.ext h)

/-- Embedding of C `strncmp(a, b, n)`: compare at most `n` bytes, stop at
the first difference (returning the byte difference) or at a common NUL
terminator (returning 0). -/
def strncmp : List Char → List Char → Nat → Int
  | _, _, 0 => 0
  | [], [], _ + 1 => 0
  | [], d :: _, _ + 1 => if d.toNat = 0 then 0 else -(d.toNat : Int)
  | c :: _, [], _ + 1 => if c.toNat = 0 then 0 else (c.toNat : Int)
  | c :: as, d :: bs, n + 1 =>
    if c.toNat ≠ d.toNat then (c.toNat : Int) - (d.toNat : Int)
    else if c.toNat = 0 then 0
    else strncmp as bs n

/-- Boolean test for an initial substring, the behaviour the source
comment at lines 85-92 ascribes to the `strncmp` idiom. -/
def isInitialSubstring : List Char → List Char → Bool
  | [], _ => true
  | _ :: _, [] => false
  | c :: as, d :: bs => c = d && isInitialSubstring as bs

/-- A valid C string has no embedded NUL byte. -/
def noNul (s : List Char) : Prop := ∀ c ∈ s, c.toNat ≠ 0

instance (s : List Char) : Decidable (noNul s) :=
  List.decidableBAll _ s

lemma strncmp_len_eq_zero_iff (a : List Char) (ha : noNul a) :
    ∀ b : List Char, (strncmp a b a.length = 0 ↔ isInitialSubstring a b = true) := by
  induction a with
  | nil => intro b; simp [strncmp, isInitialSubstring]
  | cons c as ih =>
    intro b
    have hc : c.toNat ≠ 0 := ha c (by simp)
    have has : noNul as := fun x hx => ha x (by simp [hx])
    cases b with
    | nil =>
      simp only [List.length_cons, strncmp, isInitialSubstring]
      rw [if_neg hc]
      constructor
      · intro h
        exfalso
        have : c.toNat = 0 := by exact_mod_cast h
        exact hc this
      · intro h
        cases h
    | cons d bs =>
      by_cases hcd : c.toNat = d.toNat
      · have hceq : c = d := char_eq_of_toNat_eq hcd
        subst hceq
        simp only [List.length_cons, strncmp, isInitialSubstring]
        rw [if_neg (by simp), if_neg hc]
        simp [ih has bs]
      · simp only [List.length_cons, strncmp, isInitialSubstring]
        rw [if_pos hcd]
        constructor
        · intro h
          exfalso
          have : c.toNat = d.toNat := by
            have h2 : (c.toNat : Int) = (d.toNat : Int) := by omega
            exact_mod_cast h2
          exact hcd this
        · intro h
          exfalso
          have hne : c ≠ d := fun he => hcd (by rw [he])
          simp [hne] at h

/-- Embedding of the metric dispatch at lines 96-103: first branch
`strncmp(dist_metric, "euclidean", strlen(dist_metric))`, second branch
the same against `"cosine"`, else the error exit (`none`). -/
def selectMetric (d : List Char) : Option Metric :=
  if strncmp d euclName d.length = 0 then some Metric.euclidean
  else if strncmp d cosineName d.length = 0 then some Metric.cosine
  else none

lemma selectMetric_eq (d : List Char) (hd : noNul d) :
    selectMetric d =
      (if isInitialSubstring d euclName = true then some Metric.euclidean
       else if isInitialSubstring d cosineName = true then some Metric.cosine
       else none) := by
  unfold selectMetric
  by_cases h1 : isInitialSubstring d euclName = true
  · rw [if_pos ((strncmp_len_eq_zero_iff d hd euclName).mpr h1), if_pos h1]
  · rw [if_neg (fun h => h1 ((strncmp_len_eq_zero_iff d hd euclName).mp h)), if_neg h1]
    by_cases h2 : isInitialSubstring d cosineName = true
    · rw [if_pos ((strncmp_len_eq_zero_iff d hd cosineName).mpr h2), if_pos h2]
    · rw [if_neg (fun h => h2 ((strncmp_len_eq_zero_iff d hd cosineName).mp h)), if_neg h2]

/-- C2 counterexample: the claim says the empty string is a configuration
error and that any letter case of an initial substring matches, but the
code matches the empty string (selecting euclidean, since
`strncmp(x, y, 0) == 0`) and rejects the uppercase initial substring
`"E"` (`strncmp` is case sensitive). -/
theorem metric_select_cex :
    selectMetric [] = some Metric.euclidean ∧ selectMetric ['E'] = none := by
  decide

/-- C2 amended: metric selection is a case-sensitive byte-for-byte
initial-substring match, tried first against `"euclidean"` and then
against `"cosine"`; every initial substring of `"euclidean"` (including
the empty string, which is an initial substring of both names) selects
euclidean, every initial substring of `"cosine"` other than the empty
string selects cosine, and any other string is a configuration error. -/
theorem metric_select_amended (s : List Char) (h : noNul s) :
    (selectMetric s = some Metric.euclidean ↔ isInitialSubstring s euclName = true) ∧
    (selectMetric s = some Metric.cosine ↔
      (isInitialSubstring s cosineName = true ∧ isInitialSubstring s euclName = false)) ∧
    (selectMetric s = none ↔
      (isInitialSubstring s euclName = false ∧ isInitialSubstring s cosineName = false)) := by
  rw [selectMetric_eq s h]
  cases he : isInitialSubstring s euclName <;>
    cases hcn : isInitialSubstring s cosineName <;> simp

/-- Witness for `metric_select_amended` at the concrete string `"co"`. -/
theorem metric_select_witness :
    noNul ['c', 'o'] ∧
    ((selectMetric ['c', 'o'] = some Metric.euclidean ↔
        isInitialSubstring ['c', 'o'] euclName = true) ∧
     (selectMetric ['c', 'o'] = some Metric.cosine ↔
        (isInitialSubstring ['c', 'o'] cosineName = true ∧
         isInitialSubstring ['c', 'o'] euclName = false)) ∧
     (selectMetric ['c', 'o'] = none ↔
        (isInitialSubstring ['c', 'o'] euclName = false ∧
         isInitialSubstring ['c', 'o'] cosineName = false))) :=
  ⟨by decide, metric_select_amended ['c', 'o'] (by decide)⟩

/-! ### Metric check before dataset load (lines 95-121)

After option parsing, `main` first selects the metric, exiting on a
mismatch, and only then calls `load_dataset` on the training and the
testing file, exiting when a load returns NULL.  The phase is embedded
as the list of its observable events. -/

inductive MainEv where
  | configExit
  | loadCall (path : List Char)
  | datasetExit
  | childPhase
deriving DecidableEq

/-- Embedding of lines 95-121: the metric dispatch, then the two
`load_dataset` calls with their NULL checks; `trainOk` and `testOk` say
whether the respective load succeeds. -/
def afterParse (dist training testingF : List Char) (trainOk testOk : Bool) :
    List MainEv :=
  match selectMetric dist with
  | none => [MainEv.configExit]
  | some _ =>
    MainEv.loadCall training ::
      (if trainOk then
        MainEv.loadCall testingF ::
          (if testOk then [MainEv.childPhase] else [MainEv.datasetExit])
      else [MainEv.datasetExit])

/-- C7: for every metric string that is an initial substring of neither
`"euclidean"` nor `"cosine"`, the program exits with the configuration
error and no `load_dataset` call is attempted. -/
theorem metric_error_before_load (dist tr te : List Char) (a b : Bool)
    (h0 : noNul dist)
    (h1 : isInitialSubstring dist euclName = false)
    (h2 : isInitialSubstring dist cosineName = false) :
    afterParse dist tr te a b = [MainEv.configExit] ∧
    ∀ p, MainEv.loadCall p ∉ afterParse dist tr te a b := by
  have hsel : selectMetric dist = none := by
    rw [selectMetric_eq dist h0, h1, h2]
    simp
  unfold afterParse
  rw [hsel]
  simp

/-- Witness for `metric_error_before_load` at the string `"manhattan"`. -/
theorem metric_error_before_load_witness :
    afterParse ['m', 'a', 'n', 'h', 'a', 't', 't', 'a', 'n'] ['t'] ['u'] true true
        = [MainEv.configExit] ∧
    ∀ p, MainEv.loadCall p ∉
      afterParse ['m', 'a', 'n', 'h', 'a', 't', 't', 'a', 'n'] ['t'] ['u'] true true :=
  metric_error_before_load ['m', 'a', 'n', 'h', 'a', 't', 't', 'a', 'n'] ['t'] ['u']
    true true (by decide) (by decide) (by decide)

/-! ### Coordinator event trace (lines 131-245)

The parent process is sequential, so its pipe and process operations are
embedded as the list of events it performs in program order: the
dispatch loop (lines 137-220) performs, per iteration, the two `pipe`
calls, the two `write` calls of the partition message, the `close` of
the write end, the `fork`, and the two parent-side `close` calls; the
collection loop (lines 224-245) then reads one result per worker and
closes its pipe.  `readResult i` stands for the read attempts of the
`while` loop for worker `i`. -/

inductive CoEv where
  | mkPipeCtoP (i : Nat)
  | mkPipePtoC (i : Nat)
  | writeMsg (i : Nat) (v : Nat)
  | closeParentWrite (i : Nat)
  | fork (i : Nat)
  | closeParentPtoCRead (i : Nat)
  | closeParentCtoPWrite (i : Nat)
  | readResult (i : Nat)
  | closeRead (i : Nat)
deriving DecidableEq

/-- One iteration of the dispatch loop (lines 145-216) for worker `i`
with current `start_idx = s` and computed count `n`: pipes are created,
the two integers are written, the write end closed, the child forked,
and the parent-side ends closed, in source order. -/
def dispatchIter (i s n : Nat) : List CoEv :=
  [CoEv.mkPipeCtoP i, CoEv.mkPipePtoC i, CoEv.writeMsg i s, CoEv.writeMsg i n,
   CoEv.closeParentWrite i, CoEv.fork i, CoEv.closeParentPtoCRead i,
   CoEv.closeParentCtoPWrite i]

/-- The dispatch loop from iteration `i` with `r` iterations left and
running start index `s` (lines 137-220, including the `start_idx += N`
update at line 219). -/
def dispatchFrom (T P : Nat) : Nat → Nat → Nat → List CoEv
  | 0, _, _ => []
  | r + 1, i, s => dispatchIter i s (partN T P i) ++ dispatchFrom T P r (i + 1) (s + partN T P i)

/-- The whole dispatch loop, started at `i = 0`, `start_idx = 0`. -/
def dispatchTrace (T P : Nat) : List CoEv := dispatchFrom T P P 0 0

/-- The collection loop (lines 224-245): one result read and one close
per worker, in creation order. -/
def collectTrace (P : Nat) : List CoEv :=
  List.flatten ((List.range P).map fun i => [CoEv.readResult i, CoEv.closeRead i])

/-- The parent's whole pipe-event trace: dispatch, then collection. -/
def coordTrace (T P : Nat) : List CoEv := dispatchTrace T P ++ collectTrace P

def isWriteEv : CoEv → Bool
  | CoEv.writeMsg _ _ => true
  | _ => false

def isReadEv : CoEv → Bool
  | CoEv.readResult _ => true
  | _ => false

lemma dispatchFrom_no_read (T P : Nat) :
    ∀ r i s, ∀ e ∈ dispatchFrom T P r i s, isReadEv e = false := by
  intro r
  induction r with
  | zero => intro i s e he; simp [dispatchFrom] at he
  | succ r ih =>
    intro i s e he
    simp only [dispatchFrom] at he
    rcases List.mem_append.mp he with h | h
    · simp only [dispatchIter, List.mem_cons, List.mem_singleton] at h
      rcases h with rfl | rfl | rfl | rfl | rfl | rfl | rfl | h
      · rfl
      · rfl
      · rfl
      · rfl
      · rfl
      · rfl
      · rfl
      · simp at h
        rw [h]
        rfl
    · exact ih (i + 1) (s + partN T P i) e h

lemma collectTrace_no_write (P : Nat) :
    ∀ e ∈ collectTrace P, isWriteEv e = false := by
  intro e he
  unfold collectTrace at he
  rw [List.mem_flatten] at he
  obtain ⟨l, hl, hel⟩ := he
  rw [List.mem_map] at hl
  obtain ⟨i, _, rfl⟩ := hl
  simp only [List.mem_cons, List.not_mem_nil, or_false] at hel
  rcases hel with rfl | rfl <;> rfl

/-- C8: in the parent trace every partition write strictly precedes
every result read; dispatch and collection are two separate phases. -/
theorem dispatch_before_collect (T P j k : Nat)
    (hj : j < (coordTrace T P).length) (hk : k < (coordTrace T P).length)
    (hw : isWriteEv ((coordTrace T P).get ⟨j, hj⟩) = true)
    (hr : isReadEv ((coordTrace T P).get ⟨k, hk⟩) = true) :
    j < k := by
  have hco : coordTrace T P = dispatchTrace T P ++ collectTrace P := rfl
  have hlen : (coordTrace T P).length
      = (dispatchTrace T P).length + (collectTrace P).length := by
    rw [hco, List.length_append]
  have hjlt : j < (dispatchTrace T P).length := by
    by_contra hge
    push_neg at hge
    have hj2 : j - (dispatchTrace T P).length < (collectTrace P).length := by omega
    have : (coordTrace T P).get ⟨j, hj⟩
        = (collectTrace P).get ⟨j - (dispatchTrace T P).length, hj2⟩ := by
      simp only [List.get_eq_getElem, hco]
      exact List.getElem_append_right hge
    rw [this] at hw
    have hmem := List.get_mem (collectTrace P) _ hj2
    have hfalse := collectTrace_no_write P _ hmem
    rw [hfalse] at hw
    cases hw
  have hkge : (dispatchTrace T P).length ≤ k := by
    by_contra hlt
    push_neg at hlt
    have : (coordTrace T P).get ⟨k, hk⟩ = (dispatchTrace T P).get ⟨k, hlt⟩ := by
      simp only [List.get_eq_getElem, hco]
      exact List.getElem_append_left hlt
    rw [this] at hr
    have hmem := List.get_mem (dispatchTrace T P) _ hlt
    have hfalse := dispatchFrom_no_read T P P 0 0 _ hmem
    rw [hfalse] at hr
    cases hr
  omega

/-- Witness for `dispatch_before_collect` at `T = 0`, `P = 1`,
positions 2 (a write) and 8 (the read). -/
theorem dispatch_before_collect_witness : 2 < 8 := by
  have hj : 2 < (coordTrace 0 1).length := by decide
  have hk : 8 < (coordTrace 0 1).length := by decide
  exact dispatch_before_collect 0 1 2 8 hj hk rfl rfl

lemma dispatchFrom_unfold (T P r i s : Nat) :
    dispatchFrom T P (r + 1) i s
      = dispatchIter i s (partN T P i) ++ dispatchFrom T P r (i + 1) (s + partN T P i) := rfl

lemma dispatchFrom_split (T P : Nat) :
    ∀ r i0 i, i0 ≤ i → i < i0 + r →
      ∃ pre post, dispatchFrom T P r i0 (start_idx T P i0)
        = pre ++ dispatchIter i (start_idx T P i) (partN T P i) ++ post := by
  intro r
  induction r with
  | zero => intro i0 i h1 h2; omega
  | succ r ih =>
    intro i0 i h1 h2
    by_cases hi : i = i0
    · subst hi
      refine ⟨[], dispatchFrom T P r (i + 1) (start_idx T P (i + 1)), ?_⟩
      have hst : start_idx T P i + partN T P i = start_idx T P (i + 1) := rfl
      rw [dispatchFrom_unfold, hst]
      simp
    · obtain ⟨pre, post, heq⟩ := ih (i0 + 1) i (by omega) (by omega)
      refine ⟨dispatchIter i0 (start_idx T P i0) (partN T P i0) ++ pre, post, ?_⟩
      rw [dispatchFrom_unfold]
      have hst : start_idx T P i0 + partN T P i0 = start_idx T P (i0 + 1) := rfl
      rw [hst, heq]
      simp [List.append_assoc]

lemma dispatchFrom_writeMsg (T P : Nat) :
    ∀ r i0 i v, CoEv.writeMsg i v ∈ dispatchFrom T P r i0 (start_idx T P i0) →
      i0 ≤ i ∧ i < i0 + r ∧ (v = start_idx T P i ∨ v = partN T P i) := by
  intro r
  induction r with
  | zero => intro i0 i v h; simp [dispatchFrom] at h
  | succ r ih =>
    intro i0 i v h
    rw [dispatchFrom_unfold] at h
    have hst : start_idx T P i0 + partN T P i0 = start_idx T P (i0 + 1) := rfl
    rcases List.mem_append.mp h with h | h
    · simp only [dispatchIter, List.mem_cons, List.not_mem_nil, or_false] at h
      rcases h with h | h | h | h | h | h | h | h
      · cases h
      · cases h
      · obtain ⟨h1, h2⟩ := CoEv.writeMsg.inj h
        exact ⟨by omega, by omega, Or.inl (by rw [h1, h2])⟩
      · obtain ⟨h1, h2⟩ := CoEv.writeMsg.inj h
        exact ⟨by omega, by omega, Or.inr (by rw [h1, h2])⟩
      · cases h
      · cases h
      · cases h
      · cases h
    · rw [hst] at h
      obtain ⟨h1, h2, h3⟩ := ih (i0 + 1) i v h
      exact ⟨by omega, by omega, h3⟩

/-- C9: the dispatch trace contains, for worker `i`, exactly the
iteration block `dispatchIter i (start_idx i) (partN i)`; the only
values the parent ever writes for worker `i` are that worker's own
start index and count; and within an iteration block the two partition
writes and the close of the write end all occur strictly before the
`fork`, so the two-integer message is fully buffered and EOF-terminated
before the child exists. -/
theorem write_close_before_fork (T P i : Nat) (h : i < P) :
    (∃ pre post, dispatchTrace T P
        = pre ++ dispatchIter i (start_idx T P i) (partN T P i) ++ post) ∧
    (∀ v, CoEv.writeMsg i v ∈ dispatchTrace T P →
        v = start_idx T P i ∨ v = partN T P i) ∧
    (∀ s n, ∃ before after,
        dispatchIter i s n = before ++ CoEv.fork i :: after ∧
        CoEv.writeMsg i s ∈ before ∧ CoEv.writeMsg i n ∈ before ∧
        CoEv.closeParentWrite i ∈ before ∧
        CoEv.fork i ∉ before ∧
        (∀ v, CoEv.writeMsg i v ∉ after) ∧
        CoEv.closeParentWrite i ∉ after) := by
  have h0 : (0 : Nat) = start_idx T P 0 := rfl
  refine ⟨?_, ?_, ?_⟩
  · have hsplit := dispatchFrom_split T P P 0 i (by omega) (by omega)
    exact hsplit
  · intro v hv
    have hv2 : CoEv.writeMsg i v ∈ dispatchFrom T P P 0 (start_idx T P 0) := hv
    exact (dispatchFrom_writeMsg T P P 0 i v hv2).2.2
  · intro s n
    refine ⟨[CoEv.mkPipeCtoP i, CoEv.mkPipePtoC i, CoEv.writeMsg i s,
             CoEv.writeMsg i n, CoEv.closeParentWrite i],
            [CoEv.closeParentPtoCRead i, CoEv.closeParentCtoPWrite i],
            rfl, by simp, by simp, by simp, by simp, by simp, by simp⟩

/-- Witness for `write_close_before_fork` at `T = 5`, `P = 2`, `i = 1`. -/
theorem write_close_before_fork_witness :
    1 < 2 ∧
    ((∃ pre post, dispatchTrace 5 2
        = pre ++ dispatchIter 1 (start_idx 5 2 1) (partN 5 2 1) ++ post) ∧
     (∀ v, CoEv.writeMsg 1 v ∈ dispatchTrace 5 2 →
        v = start_idx 5 2 1 ∨ v = partN 5 2 1) ∧
     (∀ s n, ∃ before after,
        dispatchIter 1 s n = before ++ CoEv.fork 1 :: after ∧
        CoEv.writeMsg 1 s ∈ before ∧ CoEv.writeMsg 1 n ∈ before ∧
        CoEv.closeParentWrite 1 ∈ before ∧
        CoEv.fork 1 ∉ before ∧
        (∀ v, CoEv.writeMsg 1 v ∉ after) ∧
        CoEv.closeParentWrite 1 ∉ after)) :=
  ⟨by decide, write_close_before_fork 5 2 1 (by decide)⟩

/-! ### Result collection (lines 224-245)

The per-worker read loop `while (bool)` reads from the pipe until
`read` returns `sizeof(int)` (take the count and stop) or `-1` (exit 1).
A `read` is embedded as an event: `ok v` for a complete integer, `err`
for a `-1` return, `eof` for a `0` return.  A pipe write of 4 bytes is
atomic (4 < PIPE_BUF), so a successful read of the one-shot message
returns the whole integer.  After end of file every further `read`
returns 0 (`eof`), so an event list that ends while the loop is still
running models a loop that spins on `eof` forever: the outcome `pending`
means the loop has consumed every event without exiting. -/

inductive ReadEv where
  | ok (v : Int)
  | eof
  | err
deriving DecidableEq

inductive LoopOut where
  | got (v : Int)
  | fatal
  | pending
deriving DecidableEq

/-- Embedding of the `while (bool)` read loop for one worker
(lines 228-239): a complete integer ends the loop with the count, a
`-1` return exits the program, and a `0` return (end of file) keeps
looping. -/
def readLoop : List ReadEv → LoopOut
  | [] => LoopOut.pending
  | ReadEv.ok v :: _ => LoopOut.got v
  | ReadEv.err :: _ => LoopOut.fatal
  | ReadEv.eof :: rest => readLoop rest

inductive CollectRes where
  | done (t : Int)
  | fatal
  | pending
deriving DecidableEq

/-- Embedding of the outer collection loop (lines 224-245): run the read
loop for each worker in creation order and accumulate `total_correct`;
a fatal read error aborts the run, and a worker whose loop never exits
leaves the whole collection pending. -/
def collectAll : List (List ReadEv) → CollectRes
  | [] => CollectRes.done 0
  | evs :: rest =>
    match readLoop evs with
    | LoopOut.got v =>
      match collectAll rest with
      | CollectRes.done t => CollectRes.done (v + t)
      | CollectRes.fatal => CollectRes.fatal
      | CollectRes.pending => CollectRes.pending
    | LoopOut.fatal => CollectRes.fatal
    | LoopOut.pending => CollectRes.pending

lemma readLoop_eof_skip (n : Nat) (rest : List ReadEv) :
    readLoop (List.replicate n ReadEv.eof ++ rest) = readLoop rest := by
  induction n with
  | zero => rfl
  | succ k ih => simpa [List.replicate_succ, readLoop] using ih

/-- C4 counterexample: the claim says a channel that closes before
delivering a result is treated as a fatal error, but on end of file the
read loop neither takes the error exit nor terminates; having consumed
every `eof` event it is still pending (and a closed pipe yields only
further `eof` reads), so the run hangs instead of failing. -/
theorem collect_eof_cex :
    readLoop (List.replicate 4 ReadEv.eof) = LoopOut.pending ∧
    LoopOut.pending ≠ LoopOut.fatal := by
  decide

/-- C4 amended: the coordinator blocks until it receives exactly one
fixed-width integer per worker, in creation order, and a read fault
(`read` returning `-1`) is a fatal error; but a channel that reaches
end of file before delivering a result makes the read loop spin on
`eof` forever (never an error exit, never a partial total); when every
channel delivers an integer, the reported `total_correct` is the sum of
all workers' counts. -/
theorem collect_amended :
    (∀ n, readLoop (List.replicate n ReadEv.eof) = LoopOut.pending) ∧
    (∀ n evs, readLoop (List.replicate n ReadEv.eof ++ ReadEv.err :: evs) = LoopOut.fatal) ∧
    (∀ n v evs, readLoop (List.replicate n ReadEv.eof ++ ReadEv.ok v :: evs) = LoopOut.got v) ∧
    (∀ (evss : List (List ReadEv)) (vs : List Int),
      evss.map readLoop = vs.map LoopOut.got →
      collectAll evss = CollectRes.done vs.sum) := by
  refine ⟨?_, ?_, ?_, ?_⟩
  · intro n
    simpa using readLoop_eof_skip n []
  · intro n evs
    rw [readLoop_eof_skip]
    rfl
  · intro n v evs
    rw [readLoop_eof_skip]
    rfl
  · intro evss
    induction evss with
    | nil =>
      intro vs h
      have hvs : vs = [] := by
        cases vs with
        | nil => rfl
        | cons v vs2 => cases h
      subst hvs
      rfl
    | cons e es ih =>
      intro vs h
      cases vs with
      | nil => cases h
      | cons v vs2 =>
        rw [List.map_cons, List.map_cons] at h
        have h1 : readLoop e = LoopOut.got v := (List.cons.inj h).1
        have h2 : es.map readLoop = vs2.map LoopOut.got := (List.cons.inj h).2
        have h3 := ih vs2 h2
        simp only [collectAll, h1, h3, List.sum_cons]

/-- Witness for `collect_amended`: two workers, the second delivering
its count after one harmless `eof`, sum `2 + 3 = 5`. -/
theorem collect_amended_witness :
    [[ReadEv.ok 2], [ReadEv.eof, ReadEv.ok 3]].map readLoop
        = [(2 : Int), 3].map LoopOut.got ∧
    collectAll [[ReadEv.ok 2], [ReadEv.eof, ReadEv.ok 3]]
        = CollectRes.done ([(2 : Int), 3].sum) :=
  ⟨by decide, collect_amended.2.2.2 [[ReadEv.ok 2], [ReadEv.eof, ReadEv.ok 3]]
    [(2 : Int), 3] (by decide)⟩

/-! ### Wait loop (lines 253-266)

The parent calls `wait` once per worker; a `wait` failure exits 1, and a
child status is inspected only through `WIFEXITED` and
`WEXITSTATUS(status) == 1`.  Statuses are embedded abstractly: `exited c`
is a normal exit with code `c` (`WIFEXITED` true), `signaled sig` is a
termination by signal (`WIFEXITED` false). -/

inductive ChildStatus where
  | exited (code : Nat)
  | signaled (sig : Nat)
deriving DecidableEq

inductive WaitEv where
  | ok (st : ChildStatus)
  | errW
deriving DecidableEq

/-- Embedding of the wait loop (lines 253-266) over the sequence of
`wait` outcomes, in order; `true` means the parent takes an `exit(1)`
branch, `false` means the loop runs to completion. -/
def waitPhase : List WaitEv → Bool
  | [] => false
  | WaitEv.errW :: _ => true
  | WaitEv.ok (ChildStatus.exited c) :: rest => if c = 1 then true else waitPhase rest
  | WaitEv.ok (ChildStatus.signaled _) :: rest => waitPhase rest

/-- C5 counterexample: the claim says any abnormal worker termination
(termination by a signal, or exit with any non-zero status) makes the
coordinator exit non-zero, but the wait loop accepts a child killed by
signal 9 and a child exiting with status 2 and proceeds to report the
total with exit status 0. -/
theorem wait_abnormal_cex :
    waitPhase [WaitEv.ok (ChildStatus.signaled 9)] = false ∧
    waitPhase [WaitEv.ok (ChildStatus.exited 2)] = false := by
  decide

/-- C5 amended: the coordinator exits non-zero in the wait phase exactly
when some `wait` call fails or some worker exited normally with status
exactly 1; a worker killed by a signal, or exiting with any other
non-zero status, is not detected and does not by itself prevent the
total from being reported with exit status 0. -/
theorem wait_amended (evs : List WaitEv) :
    waitPhase evs = true ↔
      ∃ ev ∈ evs, ev = WaitEv.errW ∨ ev = WaitEv.ok (ChildStatus.exited 1) := by
  induction evs with
  | nil => simp [waitPhase]
  | cons e rest ih =>
    cases e with
    | errW => simp [waitPhase]
    | ok st =>
      cases st with
      | exited c =>
        by_cases hc : c = 1
        · subst hc
          simp [waitPhase]
        · simp only [waitPhase, if_neg hc, ih, List.mem_cons]
          constructor
          · rintro ⟨ev, hmem, hor⟩
            exact ⟨ev, Or.inr hmem, hor⟩
          · rintro ⟨ev, hmem, hor⟩
            rcases hmem with rfl | hmem
            · rcases hor with h | h
              · cases h
              · obtain h2 := (WaitEv.ok.inj h)
                obtain h3 := ChildStatus.exited.inj h2
                omega
            · exact ⟨ev, hmem, hor⟩
      | signaled s =>
        simp only [waitPhase, ih, List.mem_cons]
        constructor
        · rintro ⟨ev, hmem, hor⟩
          exact ⟨ev, Or.inr hmem, hor⟩
        · rintro ⟨ev, hmem, hor⟩
          rcases hmem with rfl | hmem
          · rcases hor with h | h
            · cases h
            · obtain h2 := WaitEv.ok.inj h
              cases h2
          · exact ⟨ev, hmem, hor⟩

/-- Witness for `wait_amended` at a run where the second child exited
with status 1. -/
theorem wait_amended_witness :
    waitPhase [WaitEv.ok (ChildStatus.exited 0), WaitEv.ok (ChildStatus.exited 1)] = true ↔
      ∃ ev ∈ [WaitEv.ok (ChildStatus.exited 0), WaitEv.ok (ChildStatus.exited 1)],
        ev = WaitEv.errW ∨ ev = WaitEv.ok (ChildStatus.exited 1) :=
  wait_amended [WaitEv.ok (ChildStatus.exited 0), WaitEv.ok (ChildStatus.exited 1)]

/-! ### Output of a successful run (lines 107-109, 126-128, 248-250, 271-276)

A successful run performs, in program order: a verbose `fprintf(stderr)`
at line 108, a verbose `printf` at line 127, a verbose `printf` at line
249, a verbose `printf` at line 272, and the unconditional `printf` of
the total at line 276.  Each emission is embedded as a stream tag with a
message tag. -/

inductive OutStream where
  | stdout
  | stderr
deriving DecidableEq

inductive Msg where
  | loadingDatasets
  | creatingChildren
  | waitingChildren
  | verboseCount (t : Int)
  | totalLine (t : Int)
deriving DecidableEq

/-- The emissions of a successful run with verbosity flag `verbose` and
final count `total`, in source order.  Lines 127, 249 and 272 use
`printf`, so they write to standard output. -/
def successOutput (verbose : Bool) (total : Int) : List (OutStream × Msg) :=
  (if verbose then [(OutStream.stderr, Msg.loadingDatasets)] else []) ++
  (if verbose then [(OutStream.stdout, Msg.creatingChildren)] else []) ++
  (if verbose then [(OutStream.stdout, Msg.waitingChildren)] else []) ++
  (if verbose then [(OutStream.stdout, Msg.verboseCount total)] else []) ++
  [(OutStream.stdout, Msg.totalLine total)]

/-- C3 evaluation: without `-v` exactly one line (the total) reaches
standard output, but with `-v` the three verbose diagnostics of lines
127, 249 and 272 are written with `printf`, so a verbose run puts four
lines on standard output — contradicting the claim that verbose-gated
diagnostics go to the error stream and stdout carries exactly one line. -/
theorem stdout_lines_eval :
    ((successOutput false 5).filter fun e => e.1 = OutStream.stdout)
        = [(OutStream.stdout, Msg.totalLine 5)] ∧
    ((successOutput true 5).filter fun e => e.1 = OutStream.stdout).length = 4 ∧
    ((successOutput true 5).filter fun e => e.1 = OutStream.stderr)
        = [(OutStream.stderr, Msg.loadingDatasets)] := by
  decide

/-! ### Command-line parsing (lines 46-82)

`main` parses options with `getopt(argc, argv, "vK:d:p:")`: `-v` sets the
verbose flag, `-K`, `-d` and `-p` take a required argument (`K` and
`num_procs` through `atoi`, the metric as the raw string); an unknown
option or a missing required argument makes `getopt` return an error
character and the `default:` branch prints usage and exits 1.  After the
loop, `optind >= argc` (no positional argument left) exits 1; otherwise
`training_file = argv[optind]` and `testing_file = argv[optind + 1]`
(absent — and NULL — when only one positional argument was given).

The embedding models the POSIX (non-permuting) `getopt`: it stops at the
first non-option argument.  The GNU variant in glibc permutes options
behind positional arguments, but agrees with the POSIX behaviour
whenever the two dataset paths come last, which is the documented
calling convention (header comment, lines 21-23). -/

/-- Embedding of C `isspace` on the bytes relevant to `atoi`. -/
def isSpaceByte (c : Char) : Bool := c.toNat = 32 || (9 ≤ c.toNat && c.toNat ≤ 13)

/-- Embedding of C `isdigit`. -/
def isDigitByte (c : Char) : Bool := 48 ≤ c.toNat && c.toNat ≤ 57

def atoiLoop : List Char → Int → Int
  | [], acc => acc
  | c :: cs, acc =>
    if isDigitByte c then atoiLoop cs (acc * 10 + ((c.toNat : Int) - 48)) else acc

/-- Embedding of C `atoi`: skip leading whitespace, read an optional
sign and then digits; a string with no leading digits yields 0. -/
def atoi (s : List Char) : Int :=
  match s.dropWhile isSpaceByte with
  | '-' :: rest => - atoiLoop rest 0
  | '+' :: rest => atoiLoop rest 0
  | t => atoiLoop t 0

/-- The option state accumulated by the `getopt` loop (lines 49-52). -/
structure Opts where
  K : Int
  dist : List Char
  numProcs : Int
  verbose : Bool
deriving DecidableEq

/-- Defaults of lines 49-52: `K = 1`, metric `"euclidean"`,
`num_procs = 1`, verbose off. -/
def defaultOpts : Opts := ⟨1, euclName, 1, false⟩

/-- The final configuration after parsing: options plus the two
positional dataset paths (the second may be absent). -/
structure Config where
  K : Int
  dist : List Char
  numProcs : Int
  verbose : Bool
  training : List Char
  testing : Option (List Char)
deriving DecidableEq

inductive ParseOutcome where
  | usageExit
  | missingArgsExit
  | ok (cfg : Config)
deriving DecidableEq

/-- An argv element that `getopt` treats as an option cluster: it starts
with a dash and has at least one more byte (a lone `"-"` is a
positional argument). -/
def isOptTok : List Char → Bool
  | '-' :: _ :: _ => true
  | _ => false

/-- The argv element `"--"`, which terminates option parsing. -/
def isDashDash (a : List Char) : Bool := a = ['-', '-']

/-- Takes the required argument of an option: the rest of the current
cluster if non-empty, otherwise the next argv element; `none` when no
argument is available (`getopt` then returns an error character). -/
def takeOptArg : List Char → List (List Char) → Option (List Char × List (List Char))
  | [], [] => none
  | [], r :: rest2 => some (r, rest2)
  | c2 :: cs2, rest => some (c2 :: cs2, rest)

/-- Processes the option characters of one cluster (the `switch` of
lines 56-72): `v` sets verbose and continues in the cluster; `K`, `d`
and `p` consume a required argument and return to the argv loop; any
other character is the `default:` usage exit (`none`). -/
def clusterStep (st : Opts) : List Char → List (List Char) → Option (Opts × List (List Char))
  | [], rest => some (st, rest)
  | c :: cs, rest =>
    if c = 'v' then clusterStep { st with verbose := true } cs rest
    else if c = 'K' then
      match takeOptArg cs rest with
      | none => none
      | some (v, rest2) => some ({ st with K := atoi v }, rest2)
    else if c = 'd' then
      match takeOptArg cs rest with
      | none => none
      | some (v, rest2) => some ({ st with dist := v }, rest2)
    else if c = 'p' then
      match takeOptArg cs rest with
      | none => none
      | some (v, rest2) => some ({ st with numProcs := atoi v }, rest2)
    else none

/-- The `getopt` loop over argv (line 55), with fuel (each step consumes
at least one argv element, so `args.length + 1` fuel suffices): stops at
`"--"` (consuming it) or at the first non-option argument, returning the
option state and the remaining positional arguments; `none` is the
usage exit. -/
def getoptArgs : Nat → Opts → List (List Char) → Option (Opts × List (List Char))
  | 0, _, _ => none
  | fuel + 1, st, args =>
    match args with
    | [] => some (st, [])
    | a :: rest =>
      if isDashDash a then some (st, rest)
      else if isOptTok a then
        match clusterStep st a.tail rest with
        | none => none
        | some (st2, rest2) => getoptArgs fuel st2 rest2
      else some (st, a :: rest)

/-- Embedding of lines 46-82: run the `getopt` loop, then check
`optind >= argc` (no positional argument at all) and take the next two
argv elements as the dataset paths. -/
def parseArgs (args : List (List Char)) : ParseOutcome :=
  match getoptArgs (args.length + 1) defaultOpts args with
  | none => ParseOutcome.usageExit
  | some (st, pos) =>
    match pos with
    | [] => ParseOutcome.missingArgsExit
    | t :: more => ParseOutcome.ok ⟨st.K, st.dist, st.numProcs, st.verbose, t, more.head?⟩

lemma isDashDash_of_not_optTok {a : List Char} (h : isOptTok a = false) :
    isDashDash a = false := by
  by_contra hd
  have hd2 : isDashDash a = true := by
    cases hdd : isDashDash a
    · exact absurd hdd hd
    · rfl
  have ha : a = ['-', '-'] := by
    unfold isDashDash at hd2
    exact of_decide_eq_true hd2
  rw [ha] at h
  cases h

/-- C6 counterexample: the claim says a non-positive `K`, a non-positive
worker count, or fewer than two dataset paths each cause an error exit
before any work starts; the code accepts `-K 0`, accepts `-p 0`, and
accepts a single positional argument (leaving the testing path absent),
entering the run in all three cases. -/
theorem parse_validation_cex :
    parseArgs [['-', 'K'], ['0'], ['t', 'r'], ['t', 'e']]
        = ParseOutcome.ok ⟨0, euclName, 1, false, ['t', 'r'], some ['t', 'e']⟩ ∧
    parseArgs [['-', 'p'], ['0'], ['t', 'r'], ['t', 'e']]
        = ParseOutcome.ok ⟨1, euclName, 0, false, ['t', 'r'], some ['t', 'e']⟩ ∧
    parseArgs [['t', 'r']]
        = ParseOutcome.ok ⟨1, euclName, 1, false, ['t', 'r'], none⟩ := by
  decide

/-- C6 amended: argument parsing exits non-zero only for an unrecognized
option, an option in `K`, `d`, `p` with no argument available, or zero
remaining positional arguments; the values of `K` and `num_procs` are
whatever `atoi` returns, with no positivity or well-formedness check,
and a single positional argument is accepted with the testing path
absent. -/
theorem parse_amended :
    (∀ ks t1 t2, isOptTok t1 = false →
      parseArgs [['-', 'K'], ks, t1, t2]
        = ParseOutcome.ok ⟨atoi ks, euclName, 1, false, t1, some t2⟩) ∧
    (∀ ps t1 t2, isOptTok t1 = false →
      parseArgs [['-', 'p'], ps, t1, t2]
        = ParseOutcome.ok ⟨1, euclName, atoi ps, false, t1, some t2⟩) ∧
    (∀ t1, isOptTok t1 = false →
      parseArgs [t1] = ParseOutcome.ok ⟨1, euclName, 1, false, t1, none⟩) ∧
    (∀ rest, parseArgs (['-', 'x'] :: rest) = ParseOutcome.usageExit) ∧
    parseArgs [['-', 'K']] = ParseOutcome.usageExit ∧
    parseArgs [] = ParseOutcome.missingArgsExit ∧
    parseArgs [['-', 'v']] = ParseOutcome.missingArgsExit := by
  refine ⟨?_, ?_, ?_, ?_, by decide, by decide, by decide⟩
  · intro ks t1 t2 h1
    have h2 := isDashDash_of_not_optTok h1
    have e1 : isDashDash ['-', 'K'] = false := by decide
    have e2 : isOptTok ['-', 'K'] = true := by decide
    have e3 : clusterStep defaultOpts ['K'] [ks, t1, t2]
        = some (⟨atoi ks, euclName, 1, false⟩, [t1, t2]) := rfl
    simp [parseArgs, getoptArgs, e1, e2, e3, h1, h2]
  · intro ps t1 t2 h1
    have h2 := isDashDash_of_not_optTok h1
    have e1 : isDashDash ['-', 'p'] = false := by decide
    have e2 : isOptTok ['-', 'p'] = true := by decide
    have e3 : clusterStep defaultOpts ['p'] [ps, t1, t2]
        = some (⟨1, euclName, atoi ps, false⟩, [t1, t2]) := rfl
    simp [parseArgs, getoptArgs, e1, e2, e3, h1, h2]
  · intro t1 h1
    have h2 := isDashDash_of_not_optTok h1
    simp [parseArgs, getoptArgs, defaultOpts, h1, h2]
  · intro rest
    have e1 : isDashDash ['-', 'x'] = false := by decide
    have e2 : isOptTok ['-', 'x'] = true := by decide
    have e3 : clusterStep defaultOpts ['x'] rest = none := rfl
    simp [parseArgs, getoptArgs, e1, e2, e3]

/-- Witness for `parse_amended` at `-K abc` followed by two paths
(`atoi` of a non-numeric string is 0, accepted as `K`). -/
theorem parse_amended_witness :
    isOptTok ['t', 'r'] = false ∧
    parseArgs [['-', 'K'], ['a', 'b', 'c'], ['t', 'r'], ['t', 'e']]
        = ParseOutcome.ok
            ⟨atoi ['a', 'b', 'c'], euclName, 1, false, ['t', 'r'], some ['t', 'e']⟩ :=
  ⟨by decide, parse_amended.1 ['a', 'b', 'c'] ['t', 'r'] ['t', 'e'] (by decide)⟩

/-! ### The unchecked `num_procs` precondition (lines 131-143)

`-p` is parsed with `atoi` and never validated, and `num_procs` is used
as the divisor of the partition arithmetic (lines 134, 140, 142) and as
the extent of `int from_children[num_procs * 2]` (line 131). -/

/-- Length of the `int from_children[num_procs * 2]` array (line 131). -/
def fromChildrenLen (P : Nat) : Nat := P * 2

/-- C10: the parser performs no validation of `-p` (whatever `atoi`
returns becomes `num_procs`, so `num_procs ≥ 1` is an unchecked
precondition of the interface), and under that precondition the divisor
of the partition computations is nonzero — the modulo lands strictly
below `num_procs` — and the pipe-descriptor array has positive length,
so the division and array-extent hazards are unreachable. -/
theorem unchecked_num_procs :
    (∀ ps t1, isOptTok t1 = false →
      parseArgs [['-', 'p'], ps, t1]
        = ParseOutcome.ok ⟨1, euclName, atoi ps, false, t1, none⟩) ∧
    (∀ T P : Nat, 1 ≤ P → P ≠ 0 ∧ boundary T P < P ∧ 0 < fromChildrenLen P) := by
  constructor
  · intro ps t1 h1
    have h2 := isDashDash_of_not_optTok h1
    have e1 : isDashDash ['-', 'p'] = false := by decide
    have e2 : isOptTok ['-', 'p'] = true := by decide
    have e3 : clusterStep defaultOpts ['p'] [ps, t1]
        = some (⟨1, euclName, atoi ps, false⟩, [t1]) := rfl
    simp [parseArgs, getoptArgs, e1, e2, e3, h1, h2]
  · intro T P hP
    refine ⟨by omega, ?_, ?_⟩
    · unfold boundary
      exact Nat.mod_lt _ (by omega)
    · unfold fromChildrenLen
      omega

/-- Witness for `unchecked_num_procs`: `-p 0` is accepted unvalidated,
and the precondition facts at `P = 1`. -/
theorem unchecked_num_procs_witness :
    isOptTok ['t'] = false ∧
    parseArgs [['-', 'p'], ['0'], ['t']]
        = ParseOutcome.ok ⟨1, euclName, atoi ['0'], false, ['t'], none⟩ ∧
    (1 ≠ 0 ∧ boundary 5 1 < 1 ∧ 0 < fromChildrenLen 1) :=
  ⟨by decide, unchecked_num_procs.1 ['0'] ['t'] (by decide),
   unchecked_num_procs.2 5 1 (by decide)⟩

end Classifier
